import Mathlib

set_option maxRecDepth 20000
set_option maxHeartbeats 1000000

/-!
Verification of the review pipeline in `src/main.py` of Boreto1213/code-helper.

Strings are modelled as `List Char`.  Python's `str.split`, `str.strip`,
`str.startswith`, the `in` substring test and `int()` are embedded below,
faithful to CPython semantics on ASCII input (the only input the program
feeds them).  The three core functions of the source —
`create_pr_review_prompt`'s diff indexer (lines 57-74),
`parse_review_comments` (lines 146-216) and the pure comment-placement logic
of `create_github_review` (lines 325-369, with the HTTP fetches abstracted
into their fetched values) — are translated definition by definition.
-/

/-- Characters stripped by Python `str.strip()` (ASCII whitespace). -/
def isSpaceC (c : Char) : Bool :=
  c == ' ' || c == '\t' || c == '\n' || c == '\r' || c == '\x0b' || c == '\x0c'

/-- Python `s.strip()`: drop whitespace from both ends. -/
def pyStrip (s : List Char) : List Char :=
  ((s.dropWhile isSpaceC).reverse.dropWhile isSpaceC).reverse

/-- Helper for the splitters: prepend a character to the first part. -/
def consHead (x : Char) : List (List Char) → List (List Char)
  | [] => [[x]]
  | p :: ps => (x :: p) :: ps

/-- Python `s.split(sep)` for a one-character separator: every occurrence
splits, empty parts are kept, `''.split(sep) == ['']`. -/
def splitOnChar (c : Char) : List Char → List (List Char)
  | [] => [[]]
  | x :: xs => if x == c then [] :: splitOnChar c xs else consHead x (splitOnChar c xs)

/-- Python `s.split('@@')`: non-overlapping, left-to-right. -/
def splitAtAt : List Char → List (List Char)
  | [] => [[]]
  | [x] => [[x]]
  | x :: y :: ys =>
    if x == '@' && y == '@' then [] :: splitAtAt ys
    else consHead x (splitAtAt (y :: ys))

/-- Python `s.startswith(p)` on list-of-char strings. -/
def startsWithL : List Char → List Char → Bool
  | [], _ => true
  | _ :: _, [] => false
  | p :: ps, x :: xs => p == x && startsWithL ps xs

/-- Python `p in s` substring containment. -/
def containsSub (p : List Char) : List Char → Bool
  | [] => startsWithL p []
  | x :: xs => startsWithL p (x :: xs) || containsSub p xs

/-- Python `'\n'.join(parts)`. -/
def joinNL (parts : List (List Char)) : List Char :=
  List.intercalate ('\n' :: []) parts

/-- Decimal value of a digit string (used for regex group values). -/
def digitsVal (l : List Char) : Nat :=
  l.foldl (fun a c => a * 10 + (c.toNat - 48)) 0

/-- Digit/underscore tail of Python `int()` parsing: underscores must sit
between digits. -/
def pyDigitsAux : Nat → List Char → Option Nat
  | acc, [] => some acc
  | acc, c :: cs =>
    if c.isDigit then pyDigitsAux (acc * 10 + (c.toNat - 48)) cs
    else if c == '_' then
      match cs with
      | d :: _ => if d.isDigit then pyDigitsAux acc cs else none
      | [] => none
    else none

/-- Python `int()` digit part: must start with a digit. -/
def pyDigits : List Char → Option Nat
  | [] => none
  | c :: cs => if c.isDigit then pyDigitsAux 0 (c :: cs) else none

/-- Sign-then-digits part of Python `int()`. -/
def pyIntCore : List Char → Option Int
  | [] => none
  | c :: rest =>
    if c == '-' then (pyDigits rest).map (fun n => -(n : Int))
    else if c == '+' then (pyDigits rest).map (fun n => (n : Int))
    else (pyDigits (c :: rest)).map (fun n => (n : Int))

/-- Python `int(s)`: strip whitespace, optional single sign, digits
(with underscores between digits); anything else raises `ValueError`,
modelled as `none`. -/
def pyInt (s : List Char) : Option Int :=
  pyIntCore (pyStrip s)

def atatStr : List Char := ("@@").toList

def plusStr : List Char := ("+").toList

def minusStr : List Char := ("-").toList

def fenceStr : List Char := ("```").toList

def suggStr : List Char := ("```suggestion").toList

/-- The hunk-header extraction of `create_pr_review_prompt` (main.py line 67):
`int(line.split(',')[0].split('@@')[1].strip().split(' ')[0])`, with the
`except (IndexError, ValueError)` of lines 68-69 modelled as `none`
(`[0]` indexing never raises because `split` always returns at least one
part; `[1]` raises `IndexError` when `'@@'` does not occur). -/
def promptHunkExtract (line : List Char) : Option Int :=
  ((splitAtAt ((splitOnChar ',' line).headD []))[1]?).bind
    (fun part => pyInt ((splitOnChar ' ' (pyStrip part)).headD []))

/-- The hunk-header extraction of `create_github_review` (main.py line 352):
textually the same expression as line 67, transcribed from its own site. -/
def reviewHunkExtract (line : List Char) : Option Int :=
  ((splitAtAt ((splitOnChar ',' line).headD []))[1]?).bind
    (fun part => pyInt ((splitOnChar ' ' (pyStrip part)).headD []))

/-- The per-line scan of `create_pr_review_prompt` (main.py lines 62-73):
`current_line` is `None` initially; a line starting `'@@'` re-parses it
(on failure `continue` leaves it untouched); a line starting `'+'` or `'-'`
records `current_line` when set and increments it; other lines do nothing. -/
def diffIndexScan : Option Int → List (List Char) → List Int
  | _, [] => []
  | cur, line :: rest =>
    if startsWithL atatStr line then
      match promptHunkExtract line with
      | some n => diffIndexScan (some n) rest
      | none => diffIndexScan cur rest
    else if startsWithL plusStr line || startsWithL minusStr line then
      match cur with
      | some n => n :: diffIndexScan (some (n + 1)) rest
      | none => diffIndexScan none rest
    else diffIndexScan cur rest

/-- Insert into a sorted duplicate-free list, keeping it sorted duplicate-free. -/
def insertSorted (n : Int) : List Int → List Int
  | [] => [n]
  | m :: ms =>
    if n < m then n :: m :: ms
    else if n = m then m :: ms
    else m :: insertSorted n ms

/-- Python `sorted(set(l))`. -/
def sortDedup (l : List Int) : List Int :=
  l.foldl (fun acc n => insertSorted n acc) []

/-- `file_line_numbers[filename]` of `create_pr_review_prompt`
(main.py lines 60-74): `sorted(set(lines))` over the scan of the patch's
newline-split lines. -/
def fileLineNumbers (patch : List Char) : List Int :=
  sortDedup (diffIndexScan none (splitOnChar '\n' patch))

/-- The `Comment` objects built by `parse_review_comments` (main.py lines
25-30).  `line` is modelled as `Int`: in the source, `current_line` is
assigned exactly when `current_file` is, and every flush is guarded by the
truthiness of `current_file`, so a flushed comment's line is always the
integer captured by the header regex. -/
structure PyComment where
  file : List Char
  line : Int
  message : List Char
  suggestion : Option (List Char)
deriving DecidableEq

/-- Head-is-a-digit test used to model the regex `:(\d+)` requirement. -/
def headIsDigit : List Char → Bool
  | [] => false
  | c :: _ => c.isDigit

/-- Search for the leftmost match of `([^:]+):(\d+)(?:-(\d+))?` over the
colon-split parts of the line: the matched colon is the first one preceded
by at least one character since the previous colon and followed by a digit;
group 1 is everything since the previous colon, group 2 the digit run after
the colon (a following `-<digits>` only feeds the discarded group 3). -/
def findColon : List (List Char) → Option (List Char × Nat)
  | p :: q :: rest =>
    if !p.isEmpty && headIsDigit q then
      some (p, digitsVal (q.takeWhile Char.isDigit))
    else findColon (q :: rest)
  | _ => none

/-- `re.search(r'([^:]+):(\d+)(?:-(\d+))?', line)` of main.py line 161,
returning (group 1, int value of group 2) on a match. -/
def fileMatch (line : List Char) : Option (List Char × Nat) :=
  findColon (splitOnChar ':' line)

/-- Mutable state of the `parse_review_comments` loop: `current_file`,
`current_line`, `current_message`, `current_suggestion`.  `curLine` starts
at 0 in place of Python's `None`; it is only ever read under a truthy
`current_file`, i.e. after a header assigned both together. -/
structure PState where
  curFile : Option (List Char)
  curLine : Int
  msg : List (List Char)
  sugg : Option (List Char)

/-- Python truthiness of `current_file`: set and non-empty. -/
def fileTruthy : Option (List Char) → Bool
  | none => false
  | some s => !s.isEmpty

/-- The flush of main.py lines 163-170 and 199-206: emit a comment when
`current_file` is truthy and `current_message` non-empty; the message is the
buffered lines joined with newlines and stripped. -/
def flushComment (st : PState) : List PyComment :=
  if fileTruthy st.curFile && !st.msg.isEmpty then
    [⟨st.curFile.getD [], st.curLine, pyStrip (joinNL st.msg), st.sugg⟩]
  else []

/-- The body of the `for i, line in enumerate(lines)` loop of
`parse_review_comments` (main.py lines 159-197).  The suggestion branch
reads ahead over the following lines without consuming them from the outer
iteration, exactly as the Python `while j` lookahead does. -/
def parseLoop : PState → List (List Char) → List PyComment
  | st, [] => flushComment st
  | st, line :: rest =>
    match fileMatch line with
    | some fl =>
      flushComment st ++ parseLoop ⟨some (pyStrip fl.1), (fl.2 : Int), [], none⟩ rest
    | none =>
      if containsSub suggStr line then
        parseLoop ⟨st.curFile, st.curLine, st.msg,
          some (pyStrip (joinNL (rest.takeWhile (fun l => !containsSub fenceStr l))))⟩ rest
      else if containsSub fenceStr line then
        parseLoop st rest
      else if fileTruthy st.curFile && !(pyStrip line).isEmpty then
        parseLoop ⟨st.curFile, st.curLine, st.msg ++ [line], st.sugg⟩ rest
      else parseLoop st rest

/-- `parse_review_comments` (main.py lines 146-216). -/
def parse_review_comments (text : List Char) : List PyComment :=
  parseLoop ⟨none, 0, [], none⟩ (splitOnChar '\n' text)

/-- One entry of the `diff_data` JSON list fetched in `create_github_review`:
the filename and the (possibly empty, for `file_data.get('patch', '')`) patch
text. -/
structure FileData where
  filename : List Char
  patch : List Char
deriving DecidableEq

/-- The `for i, line in enumerate(patch_lines)` scan of `create_github_review`
(main.py lines 345-358): the first `'@@'` line whose extracted integer is
`<= comment.line` yields `position = i + (comment.line - line_num)`;
extraction failures and larger values continue the scan; falling off the end
leaves `line_found` false, modelled as `none`. -/
def resolveScan (commentLine : Int) : Nat → List (List Char) → Option Int
  | _, [] => none
  | i, line :: rest =>
    if startsWithL atatStr line then
      match reviewHunkExtract line with
      | some v =>
        if v ≤ commentLine then some ((i : Int) + (commentLine - v))
        else resolveScan commentLine (i + 1) rest
      | none => resolveScan commentLine (i + 1) rest
    else resolveScan commentLine (i + 1) rest

/-- Per-comment outcome inside `create_github_review`'s comment loop
(main.py lines 332-369): no filename matched (warning printed), a file
matched but no position was found (nothing appended), or an entry with a
position was appended. -/
inductive CommentResult where
  | unknownFile : CommentResult
  | noEntry : CommentResult
  | placed : Int → CommentResult
deriving DecidableEq

/-- The `for file_data in diff_data` loop of main.py lines 334-366 for a
single comment, with its `file_found` flag: a filename match with an empty
patch `continue`s to later files; a match with a non-empty patch runs the
scan and `break`s whether or not a position was found. -/
def resolveCommentAux : Bool → PyComment → List FileData → CommentResult
  | found, _, [] => if found then .noEntry else .unknownFile
  | found, c, f :: fs =>
    if f.filename = c.file then
      if f.patch.isEmpty then resolveCommentAux true c fs
      else
        match resolveScan c.line 0 (splitOnChar '\n' f.patch) with
        | some p => .placed p
        | none => .noEntry
    else resolveCommentAux found c fs

/-- Position resolution of one parsed comment against the fetched diff. -/
def resolveComment (diff : List FileData) (c : PyComment) : CommentResult :=
  resolveCommentAux false c diff

/-- Python truthiness of `comment.suggestion` in the body f-string. -/
def suggTruthy : Option (List Char) → Bool
  | none => false
  | some s => !s.isEmpty

/-- The body built on main.py line 364:
`f"{message}\n\n"` plus a suggestion fence only for a truthy suggestion. -/
def commentBody (c : PyComment) : List Char :=
  c.message ++ ('\n' :: '\n' :: []) ++
    (if suggTruthy c.suggestion then
      ("```suggestion\n").toList ++ c.suggestion.getD [] ++ ("\n```").toList
    else [])

/-- One element of `review_data["comments"]` (main.py lines 361-365). -/
structure PositionedComment where
  path : List Char
  position : Int
  body : List Char
deriving DecidableEq

/-- The `review_data["comments"]` list accumulated by the comment loop. -/
def buildReviewComments (diff : List FileData) (cs : List PyComment) : List PositionedComment :=
  cs.filterMap (fun c =>
    match resolveComment diff c with
    | .placed p => some ⟨c.file, p, commentBody c⟩
    | _ => none)

/-- Terminal outcome of `create_github_review`'s pure decision logic:
either the early return of lines 285-287 (`"No comments parsed"`, nothing
posted), or the POST of lines 372-376 carrying the accumulated positioned
comments (possibly an empty array). -/
inductive ReviewOutcome where
  | noComments : ReviewOutcome
  | submitted : List PositionedComment → ReviewOutcome
deriving DecidableEq

/-- `create_github_review` (main.py lines 273-385) with the two successful
HTTP fetches abstracted into the `diff` argument they return: an empty
parsed-comment list returns early, otherwise the review is submitted with
whatever positioned comments survived. -/
def create_github_review (diff : List FileData) (cs : List PyComment) : ReviewOutcome :=
  match cs with
  | [] => .noComments
  | _ => .submitted (buildReviewComments diff cs)

/-- Modelled from the spec (section 4.1, DiffIndexer), for comparison in C2:
parse the new-file start line, "the number immediately after the `+`", from a
hunk header; `none` when no digits follow a `+` (malformed header). -/
def specParseNewStart (line : List Char) : Option Int :=
  match line.dropWhile (fun ch => ch != '+') with
  | [] => none
  | _ :: rest =>
    if (rest.takeWhile Char.isDigit).isEmpty then none
    else some ((digitsVal (rest.takeWhile Char.isDigit) : Int))

/-- Modelled from the spec (section 4.1, DiffIndexer): the `lineToPosition`
scan — set `currentLine` from each hunk header (unset on a malformed one),
and on each `+`/`-` line record `currentLine ↦` the line's 0-based physical
index, then increment.  No such map exists in the source; the source builds
only the valid-line list (main.py lines 60-74) and never a position map. -/
def specIndexScan : Nat → Option Int → List (List Char) → List (Int × Nat)
  | _, _, [] => []
  | i, cur, line :: rest =>
    if startsWithL atatStr line then
      specIndexScan (i + 1) (specParseNewStart line) rest
    else if startsWithL plusStr line || startsWithL minusStr line then
      match cur with
      | some n => (n, i) :: specIndexScan (i + 1) (some (n + 1)) rest
      | none => specIndexScan (i + 1) none rest
    else specIndexScan (i + 1) cur rest

/-- Modelled from the spec (section 4.1): lookup in the spec's
`lineToPosition` map for one file's patch. -/
def specLineToPosition (patch : List Char) (target : Int) : Option Nat :=
  (specIndexScan 0 none (splitOnChar '\n' patch)).lookup target

/-- A hunk header of the standard documented shape `@@ -a,b +c,d @@`,
parameterised by the four digit strings. -/
def stdHeader (a b c d : List Char) : List Char :=
  '@' :: '@' :: ' ' :: '-' ::
    (a ++ ',' :: (b ++ ' ' :: '+' :: (c ++ ',' :: (d ++ ' ' :: '@' :: '@' :: []))))

/-- Concrete header with distinct old and new start lines. -/
def c1hdr : List Char := ("@@ -2,2 +5,3 @@").toList

/-- The spec's own DiffIndexer test-vector patch. -/
def c5patch : List Char := ("@@ -1,2 +1,3 @@\n line1\n+added\n line2").toList

/-- A hunk header whose integer extraction fails. -/
def c6badHdr : List Char := ("@@ bad @@").toList

/-- A patch with a valid hunk header, then a malformed one, then a `+` line. -/
def c6patch : List Char := ("@@ -1,1 +1,1 @@\n+a\n@@ bad @@\n+b").toList

/-- The spec's CommentParser test-vector input. -/
def c3text : List Char :=
  ("[app.py]:5\nConsider renaming this variable.\n```suggestion\nx = better_name\n```").toList

/-- What `parse_review_comments` actually produces on `c3text`. -/
def c3comment : PyComment :=
  ⟨("[app.py]").toList, 5,
    ("Consider renaming this variable.\nx = better_name").toList,
    some (("x = better_name").toList)⟩

/-- A patch whose hunk has context lines between added lines. -/
def c2patch : List Char := ("@@ -3,3 +3,4 @@\n ctx\n+a\n ctx2\n+b\n ctx3").toList

def c2file : FileData := ⟨("x.py").toList, c2patch⟩

def c2comment : PyComment := ⟨("x.py").toList, 3, ("m").toList, none⟩

/-- First line of `c2patch`, for the C2 witness. -/
def c2hdr : List Char := ("@@ -3,3 +3,4 @@").toList

def c2wrest : List (List Char) := [("+a").toList]

def c7file : FileData := ⟨("a.py").toList, ("@@ -1,1 +1,1 @@\n+x").toList⟩

/-- A parsed comment naming a file absent from the diff set. -/
def c7ghost : PyComment := ⟨("ghost.py").toList, 1, ("msg").toList, none⟩

/-- Patch whose valid-line list is `[-1]`, for the C4 counterexample. -/
def c4patch : List Char := ("@@ -1,1 +1,1 @@\n+x").toList

def c4file : FileData := ⟨("a.py").toList, c4patch⟩

/-- AI text quoting the valid line `-1` back, as the round-trip prescribes. -/
def c4negText : List Char := ("a.py:-1\nlooks wrong").toList

/-- New-file patch (old start 0), whose valid lines are non-negative. -/
def w4patch : List Char := ("@@ -0,0 +1,2 @@\n+a\n+b").toList

def w4f : List Char := ("a.py").toList

def w4m : List Char := ("Nice").toList

def w4ds : List Char := ("1").toList

/-- A placeable parsed comment for the C8 witness batch. -/
def w8good : PyComment := ⟨("a.py").toList, 1, ("m1").toList, none⟩

def w10text : List Char := ("a.py:3\nhi").toList

def w10comment : PyComment := ⟨("a.py").toList, 3, ("hi").toList, none⟩

def w10patch : List Char := ("@@ -1,2 +3,4 @@\n+z").toList

def w10rest : List (List Char) := [("+z").toList]

/-- The two hunk-header extractions are the same function, one transcription
per call site. -/
theorem hunk_extract_congr (l : List Char) : promptHunkExtract l = reviewHunkExtract l := rfl

/-- A digit character differs from any non-digit character. -/
theorem digit_ne (c x : Char) (h : c.isDigit = true) (hx : x.isDigit = false) : c ≠ x := by
  intro e
  rw [e, hx] at h
  cases h

/-- Digit characters are not Python whitespace. -/
theorem digit_not_spaceC (c : Char) (h : c.isDigit = true) : isSpaceC c = false := by
  have h1 : c ≠ ' ' := digit_ne c ' ' h (by decide)
  have h2 : c ≠ '\t' := digit_ne c '\t' h (by decide)
  have h3 : c ≠ '\n' := digit_ne c '\n' h (by decide)
  have h4 : c ≠ '\r' := digit_ne c '\r' h (by decide)
  have h5 : c ≠ '\x0b' := digit_ne c '\x0b' h (by decide)
  have h6 : c ≠ '\x0c' := digit_ne c '\x0c' h (by decide)
  simp [isSpaceC, h1, h2, h3, h4, h5, h6]

/-- `dropWhile` is the identity on a list where the predicate never holds. -/
theorem dropWhile_all_false (p : Char → Bool) (l : List Char)
    (h : ∀ x ∈ l, p x = false) : l.dropWhile p = l := by
  cases l with
  | nil => rfl
  | cons a l => simp [List.dropWhile_cons, h a (by simp)]

/-- `takeWhile` is the identity on a list where the predicate always holds. -/
theorem takeWhile_all_true (p : Char → Bool) (l : List Char)
    (h : ∀ x ∈ l, p x = true) : l.takeWhile p = l := by
  induction l with
  | nil => rfl
  | cons a l ih =>
    have ha := h a (by simp)
    have hl := ih (fun x hx => h x (by simp [hx]))
    simp [List.takeWhile_cons, ha, hl]

/-- `str.strip` is the identity on whitespace-free strings. -/
theorem pyStrip_all_not_space (l : List Char) (h : ∀ x ∈ l, isSpaceC x = false) :
    pyStrip l = l := by
  unfold pyStrip
  rw [dropWhile_all_false _ _ h]
  rw [dropWhile_all_false _ _ (fun x hx => h x (List.mem_reverse.mp hx))]
  exact List.reverse_reverse l

/-- Splitting on a character absent from the string yields one part. -/
theorem splitOnChar_not_mem (c : Char) (l : List Char) (h : c ∉ l) :
    splitOnChar c l = [l] := by
  induction l with
  | nil => rfl
  | cons x xs ih =>
    have hx : (x == c) = false := by
      simp only [beq_eq_false_iff_ne]
      intro e
      exact h (by simp [e])
    have hxs : c ∉ xs := fun hc => h (by simp [hc])
    simp [splitOnChar, hx, ih hxs, consHead]

/-- Splitting at the first occurrence of the separator. -/
theorem splitOnChar_append (c : Char) (l1 l2 : List Char) (h : c ∉ l1) :
    splitOnChar c (l1 ++ c :: l2) = l1 :: splitOnChar c l2 := by
  induction l1 with
  | nil => simp [splitOnChar]
  | cons x xs ih =>
    have hx : (x == c) = false := by
      simp only [beq_eq_false_iff_ne]
      intro e
      exact h (by simp [e])
    have hxs : c ∉ xs := fun hc => h (by simp [hc])
    simp [splitOnChar, hx, ih hxs, consHead]

/-- Splitting on `'@@'` is the identity on `'@'`-free strings. -/
theorem splitAtAt_not_mem (l : List Char) (h : '@' ∉ l) : splitAtAt l = [l] := by
  induction l with
  | nil => rfl
  | cons x xs ih =>
    have hx : (x == '@') = false := by
      simp only [beq_eq_false_iff_ne]
      intro e
      exact h (by simp [e])
    have hxs : '@' ∉ xs := fun hc => h (by simp [hc])
    cases xs with
    | nil => rfl
    | cons y ys =>
      simp [splitAtAt, hx, consHead, ih hxs]

/-- A non-empty list is not `isEmpty`. -/
theorem isEmpty_false_of_ne_nil (l : List Char) (h : l ≠ []) : l.isEmpty = false := by
  cases l with
  | nil => exact absurd rfl h
  | cons a l => rfl

/-- `pyDigitsAux` on an all-digit string folds the digits into the
accumulator. -/
theorem pyDigitsAux_all (l : List Char) (h : ∀ x ∈ l, x.isDigit = true) :
    ∀ acc : Nat, pyDigitsAux acc l = some (l.foldl (fun a c => a * 10 + (c.toNat - 48)) acc) := by
  induction l with
  | nil => intro acc; rfl
  | cons c cs ih =>
    intro acc
    have hc := h c (by simp)
    simp [pyDigitsAux, hc, List.foldl_cons]
    exact ih (fun x hx => h x (by simp [hx])) (acc * 10 + (c.toNat - 48))

/-- `pyDigits` of a non-empty all-digit string is its decimal value. -/
theorem pyDigits_all (l : List Char) (h0 : l ≠ []) (h : ∀ x ∈ l, x.isDigit = true) :
    pyDigits l = some (digitsVal l) := by
  cases l with
  | nil => exact absurd rfl h0
  | cons c cs =>
    have hc := h c (by simp)
    simp [pyDigits, hc]
    exact pyDigitsAux_all (c :: cs) h 0

/-- Python `int` of a minus sign followed by digits. -/
theorem pyInt_neg_digits (a : List Char) (ha : a ≠ []) (h : ∀ x ∈ a, x.isDigit = true) :
    pyInt ('-' :: a) = some (-(digitsVal a : Int)) := by
  have hs : pyStrip ('-' :: a) = '-' :: a := by
    apply pyStrip_all_not_space
    intro x hx
    rcases List.mem_cons.mp hx with e | hxa
    · rw [e]; decide
    · exact digit_not_spaceC x (h x hxa)
  simp [pyInt, hs, pyIntCore, pyDigits_all a ha h]

/-- Shape of `stdHeader` as first-comma decomposition. -/
theorem stdHeader_decomp (a b c d : List Char) :
    stdHeader a b c d =
      ('@' :: '@' :: ' ' :: '-' :: a) ++
        ',' :: (b ++ ' ' :: '+' :: (c ++ ',' :: (d ++ ' ' :: '@' :: '@' :: []))) := by
  simp [stdHeader]

/-- A standard header starts with `'@@'`. -/
theorem startsWith_stdHeader (a b c d : List Char) :
    startsWithL atatStr (stdHeader a b c d) = true := rfl

/-- The source's hunk-header extraction applied to a standard header
`@@ -a,b +c,d @@` yields the NEGATED old-file start `-a`: the first
comma-split keeps `"@@ -a"`, the `'@@'`-split leaves `" -a"`, and `int`
consumes the minus sign as a sign character. -/
theorem reviewHunkExtract_stdHeader (a b c d : List Char) (ha : a ≠ [])
    (hda : ∀ ch ∈ a, ch.isDigit = true) :
    reviewHunkExtract (stdHeader a b c d) = some (-(digitsVal a : Int)) := by
  have hnc : ',' ∉ ('@' :: '@' :: ' ' :: '-' :: a) := by
    intro hmem
    rcases List.mem_cons.mp hmem with e | hmem
    · cases e
    rcases List.mem_cons.mp hmem with e | hmem
    · cases e
    rcases List.mem_cons.mp hmem with e | hmem
    · cases e
    rcases List.mem_cons.mp hmem with e | hmem
    · cases e
    · exact digit_ne ',' ',' (hda ',' hmem) (by decide) rfl
  have hsplit :
      splitOnChar ',' (stdHeader a b c d) =
        ('@' :: '@' :: ' ' :: '-' :: a) ::
          splitOnChar ',' (b ++ ' ' :: '+' :: (c ++ ',' :: (d ++ ' ' :: '@' :: '@' :: []))) := by
    rw [stdHeader_decomp]
    exact splitOnChar_append ',' _ _ hnc
  have hat : '@' ∉ (' ' :: '-' :: a) := by
    intro hmem
    rcases List.mem_cons.mp hmem with e | hmem
    · cases e
    rcases List.mem_cons.mp hmem with e | hmem
    · cases e
    · exact digit_ne '@' '@' (hda '@' hmem) (by decide) rfl
  have hatat : splitAtAt ('@' :: '@' :: ' ' :: '-' :: a) = [] :: [' ' :: '-' :: a] := by
    have h1 : splitAtAt ('@' :: '@' :: (' ' :: '-' :: a)) = [] :: splitAtAt (' ' :: '-' :: a) := by
      simp [splitAtAt]
    rw [h1, splitAtAt_not_mem _ hat]
  have hstrip : pyStrip (' ' :: '-' :: a) = '-' :: a := by
    unfold pyStrip
    have hd1 : (' ' :: '-' :: a).dropWhile isSpaceC = '-' :: a := by
      have hrest : ('-' :: a).dropWhile isSpaceC = '-' :: a := by
        apply dropWhile_all_false
        intro x hx
        rcases List.mem_cons.mp hx with e | hxa
        · rw [e]; decide
        · exact digit_not_spaceC x (hda x hxa)
      have hsp : isSpaceC ' ' = true := by decide
      simp [List.dropWhile_cons, hsp, hrest]
    rw [hd1]
    rw [dropWhile_all_false _ _ (fun x hx => by
      rcases List.mem_cons.mp (List.mem_reverse.mp hx) with e | hxa
      · rw [e]; decide
      · exact digit_not_spaceC x (hda x hxa))]
    exact List.reverse_reverse _
  have hnospace : ' ' ∉ ('-' :: a) := by
    intro hmem
    rcases List.mem_cons.mp hmem with e | hmem
    · cases e
    · exact digit_ne ' ' ' ' (hda ' ' hmem) (by decide) rfl
  unfold reviewHunkExtract
  rw [hsplit]
  rw [List.headD_cons]
  rw [hatat]
  simp only [List.getElem?_cons_succ, List.getElem?_cons_zero, Option.some_bind]
  rw [hstrip, splitOnChar_not_mem ' ' _ hnospace]
  rw [List.headD_cons]
  exact pyInt_neg_digits a ha hda

/-- Joining a single line changes nothing. -/
theorem joinNL_single (l : List Char) : joinNL [l] = l := by
  simp [joinNL, List.intercalate]

/-- A line without a colon never matches the header regex. -/
theorem fileMatch_no_colon (m : List Char) (h : ':' ∉ m) : fileMatch m = none := by
  unfold fileMatch
  rw [splitOnChar_not_mem ':' m h]
  rfl

/-- On `<token>:<digits>` with a colon-free non-empty token and a non-empty
digit run, the header regex captures the whole token and the digits' value. -/
theorem fileMatch_header (f ds : List Char) (hf1 : ':' ∉ f) (hf2 : f ≠ [])
    (hds0 : ds ≠ []) (hds : ∀ x ∈ ds, x.isDigit = true) :
    fileMatch (f ++ ':' :: ds) = some (f, digitsVal ds) := by
  have hcol : ':' ∉ ds := by
    intro hmem
    exact digit_ne ':' ':' (hds ':' hmem) (by decide) rfl
  unfold fileMatch
  rw [splitOnChar_append ':' f ds hf1, splitOnChar_not_mem ':' ds hcol]
  have h1 : f.isEmpty = false := isEmpty_false_of_ne_nil f hf2
  have h2 : headIsDigit ds = true := by
    cases ds with
    | nil => exact absurd rfl hds0
    | cons d rest => exact hds d (by simp)
  simp [findColon, h1, h2, takeWhile_all_true Char.isDigit ds hds]

/-- Membership in `insertSorted` is membership in the inserted element or the
list. -/
theorem mem_insertSorted (m n : Int) (l : List Int) :
    m ∈ insertSorted n l ↔ m = n ∨ m ∈ l := by
  induction l with
  | nil => simp [insertSorted]
  | cons k ks ih =>
    by_cases h1 : n < k
    · simp only [insertSorted, if_pos h1, List.mem_cons]
    · by_cases h2 : n = k
      · simp only [insertSorted, if_neg h1, if_pos h2, List.mem_cons]
        subst h2
        tauto
      · simp only [insertSorted, if_neg h1, if_neg h2, List.mem_cons, ih]
        tauto

/-- Foldl-insert only adds members of the accumulator or the list. -/
theorem mem_foldl_insertSorted (l : List Int) :
    ∀ acc : List Int, ∀ n : Int,
      n ∈ l.foldl (fun a k => insertSorted k a) acc → n ∈ acc ∨ n ∈ l := by
  induction l with
  | nil => intro acc n h; exact Or.inl h
  | cons k ks ih =>
    intro acc n h
    rw [List.foldl_cons] at h
    rcases ih (insertSorted k acc) n h with h2 | h2
    · rcases (mem_insertSorted n k acc).mp h2 with h3 | h3
      · exact Or.inr (by simp [h3])
      · exact Or.inl h3
    · exact Or.inr (by simp [h2])

/-- Valid-line-list membership comes from the raw scan. -/
theorem mem_scan_of_mem_fileLineNumbers (patch : List Char) (L : Int)
    (h : L ∈ fileLineNumbers patch) : L ∈ diffIndexScan none (splitOnChar '\n' patch) := by
  unfold fileLineNumbers sortDedup at h
  rcases mem_foldl_insertSorted _ [] L h with h2 | h2
  · cases h2
  · exact h2

/-- Every recorded line number descends from some successfully parsed hunk
header whose extracted value is at most it (the counter only increments). -/
theorem diffIndexScan_origin (lines : List (List Char)) :
    ∀ (cur : Option Int) (L : Int), L ∈ diffIndexScan cur lines →
      (∃ n, cur = some n ∧ n ≤ L) ∨
      (∃ H ∈ lines, startsWithL atatStr H = true ∧
        ∃ v, promptHunkExtract H = some v ∧ v ≤ L) := by
  induction lines with
  | nil => intro cur L h; cases h
  | cons line rest ih =>
    intro cur L h
    by_cases hat : startsWithL atatStr line = true
    · rcases hx : promptHunkExtract line with _ | v
      · rw [show diffIndexScan cur (line :: rest) = diffIndexScan cur rest by
          simp [diffIndexScan, hat, hx]] at h
        rcases ih cur L h with h2 | h2
        · exact Or.inl h2
        · rcases h2 with ⟨H, hH, hrest⟩
          exact Or.inr ⟨H, by simp [hH], hrest⟩
      · rw [show diffIndexScan cur (line :: rest) = diffIndexScan (some v) rest by
          simp [diffIndexScan, hat, hx]] at h
        rcases ih (some v) L h with h2 | h2
        · rcases h2 with ⟨n, hn, hnl⟩
          have : v = n := by injection hn
          exact Or.inr ⟨line, by simp, hat, v, hx, by omega⟩
        · rcases h2 with ⟨H, hH, hrest⟩
          exact Or.inr ⟨H, by simp [hH], hrest⟩
    · by_cases hpm : (startsWithL plusStr line || startsWithL minusStr line) = true
      · rcases cur with _ | n
        · rw [show diffIndexScan none (line :: rest) = diffIndexScan none rest by
            simp [diffIndexScan, hat, hpm]] at h
          rcases ih none L h with h2 | h2
          · rcases h2 with ⟨n, hn, _⟩; cases hn
          · rcases h2 with ⟨H, hH, hrest⟩
            exact Or.inr ⟨H, by simp [hH], hrest⟩
        · rw [show diffIndexScan (some n) (line :: rest) = n :: diffIndexScan (some (n + 1)) rest by
            simp [diffIndexScan, hat, hpm]] at h
          rcases List.mem_cons.mp h with h2 | h2
          · exact Or.inl ⟨n, rfl, by omega⟩
          · rcases ih (some (n + 1)) L h2 with h3 | h3
            · rcases h3 with ⟨k, hk, hkl⟩
              have : n + 1 = k := by injection hk
              exact Or.inl ⟨n, rfl, by omega⟩
            · rcases h3 with ⟨H, hH, hrest⟩
              exact Or.inr ⟨H, by simp [hH], hrest⟩
      · rw [show diffIndexScan cur (line :: rest) = diffIndexScan cur rest by
          simp [diffIndexScan, hat, hpm]] at h
        rcases ih cur L h with h2 | h2
        · exact Or.inl h2
        · rcases h2 with ⟨H, hH, hrest⟩
          exact Or.inr ⟨H, by simp [hH], hrest⟩

/-- If some header in the scanned lines parses to a value at most the
comment line, the position scan succeeds. -/
theorem resolveScan_isSome (L : Int) (lines : List (List Char)) (H : List Char) (v : Int)
    (hmem : H ∈ lines) (hH : startsWithL atatStr H = true)
    (hx : reviewHunkExtract H = some v) (hv : v ≤ L) :
    ∀ i : Nat, ∃ p : Int, resolveScan L i lines = some p := by
  induction lines with
  | nil => cases hmem
  | cons line rest ih =>
    intro i
    by_cases hat : startsWithL atatStr line = true
    · rcases hx2 : reviewHunkExtract line with _ | w
      · have hlr : line ≠ H := by
          intro e
          rw [e, hx] at hx2
          cases hx2
        have hmem2 : H ∈ rest := by
          rcases List.mem_cons.mp hmem with e | h2
          · exact absurd e.symm hlr
          · exact h2
        rcases ih hmem2 (i + 1) with ⟨p, hp⟩
        exact ⟨p, by simp [resolveScan, hat, hx2, hp]⟩
      · by_cases hw : w ≤ L
        · exact ⟨(i : Int) + (L - w), by simp [resolveScan, hat, hx2, hw]⟩
        · have hlr : line ≠ H := by
            intro e
            rw [e, hx] at hx2
            have : v = w := by injection hx2
            omega
          have hmem2 : H ∈ rest := by
            rcases List.mem_cons.mp hmem with e | h2
            · exact absurd e.symm hlr
            · exact h2
          rcases ih hmem2 (i + 1) with ⟨p, hp⟩
          exact ⟨p, by simp [resolveScan, hat, hx2, hw, hp]⟩
    · have hmem2 : H ∈ rest := by
        rcases List.mem_cons.mp hmem with e | h2
        · rw [e] at hH; exact absurd hH hat
        · exact h2
      rcases ih hmem2 (i + 1) with ⟨p, hp⟩
      exact ⟨p, by simp [resolveScan, hat, hp]⟩

/-- The position scan steps over a block of lines none of which is a header
parsing to a value at most the comment line. -/
theorem resolveScan_skip (L : Int) (pre : List (List Char))
    (h : ∀ l ∈ pre, startsWithL atatStr l = true →
      ∀ w : Int, reviewHunkExtract l = some w → L < w) :
    ∀ (ls : List (List Char)) (i : Nat),
      resolveScan L i (pre ++ ls) = resolveScan L (i + pre.length) ls := by
  induction pre with
  | nil => intro ls i; simp
  | cons l pre ih =>
    intro ls i
    have hstep : resolveScan L i ((l :: pre) ++ ls) = resolveScan L (i + 1) (pre ++ ls) := by
      by_cases hat : startsWithL atatStr l = true
      · rcases hx : reviewHunkExtract l with _ | w
        · simp [resolveScan, hat, hx]
        · have hw : ¬ w ≤ L := by
            have := h l (by simp) hat w hx
            omega
          simp [resolveScan, hat, hx, hw]
      · simp [resolveScan, hat]
    rw [hstep, ih (fun l2 h2 => h l2 (by simp [h2])) ls (i + 1)]
    congr 1
    simp
    omega

/-- The per-comment file loop ignores files whose name does not match. -/
theorem resolveCommentAux_skip (c : PyComment) (d1 : List FileData)
    (h : ∀ fd ∈ d1, fd.filename ≠ c.file) :
    ∀ (d2 : List FileData) (found : Bool),
      resolveCommentAux found c (d1 ++ d2) = resolveCommentAux found c d2 := by
  induction d1 with
  | nil => intro d2 found; rfl
  | cons fd d1 ih =>
    intro d2 found
    have hne : ¬ fd.filename = c.file := h fd (by simp)
    have hstep : resolveCommentAux found c ((fd :: d1) ++ d2) =
        resolveCommentAux found c (d1 ++ d2) := by
      simp [resolveCommentAux, hne]
    rw [hstep, ih (fun fd2 h2 => h fd2 (by simp [h2])) d2 found]

/-- A comment whose file matches nothing in the diff resolves to
`unknownFile` (the printed warning path of main.py lines 368-369). -/
theorem resolveComment_unknown (c : PyComment) (d : List FileData)
    (h : ∀ fd ∈ d, fd.filename ≠ c.file) :
    resolveComment d c = CommentResult.unknownFile := by
  unfold resolveComment
  have := resolveCommentAux_skip c d h [] false
  rw [List.append_nil] at this
  rw [this]
  rfl

/-- Comments in a flush carry the state's current line. -/
theorem flushComment_line (st : PState) (c : PyComment) (h : c ∈ flushComment st) :
    c.line = st.curLine := by
  unfold flushComment at h
  by_cases hc : (fileTruthy st.curFile && !st.msg.isEmpty) = true
  · rw [if_pos hc] at h
    rcases List.mem_cons.mp h with e | h2
    · rw [e]
    · cases h2
  · rw [if_neg hc] at h
    cases h

/-- Every comment the parser emits has a non-negative line number: header
lines set it from the regex's digit capture. -/
theorem parseLoop_line_nonneg (lines : List (List Char)) :
    ∀ st : PState, 0 ≤ st.curLine → ∀ c ∈ parseLoop st lines, 0 ≤ c.line := by
  induction lines with
  | nil =>
    intro st hst c hc
    rw [flushComment_line st c hc]
    exact hst
  | cons line rest ih =>
    intro st hst c hc
    rcases hfm : fileMatch line with _ | fl
    · by_cases h1 : containsSub suggStr line = true
      · rw [show parseLoop st (line :: rest) =
            parseLoop ⟨st.curFile, st.curLine, st.msg,
              some (pyStrip (joinNL (rest.takeWhile (fun l => !containsSub fenceStr l))))⟩ rest by
          simp [parseLoop, hfm, h1]] at hc
        exact ih ⟨st.curFile, st.curLine, st.msg,
          some (pyStrip (joinNL (rest.takeWhile (fun l => !containsSub fenceStr l))))⟩ hst c hc
      · by_cases h2 : containsSub fenceStr line = true
        · rw [show parseLoop st (line :: rest) = parseLoop st rest by
            simp [parseLoop, hfm, h1, h2]] at hc
          exact ih st hst c hc
        · by_cases h3 : (fileTruthy st.curFile && !(pyStrip line).isEmpty) = true
          · rw [show parseLoop st (line :: rest) =
                parseLoop ⟨st.curFile, st.curLine, st.msg ++ [line], st.sugg⟩ rest by
              simp [parseLoop, hfm, h1, h2, h3]] at hc
            exact ih ⟨st.curFile, st.curLine, st.msg ++ [line], st.sugg⟩ hst c hc
          · rw [show parseLoop st (line :: rest) = parseLoop st rest by
              simp [parseLoop, hfm, h1, h2, h3]] at hc
            exact ih st hst c hc
    · rw [show parseLoop st (line :: rest) =
          flushComment st ++ parseLoop ⟨some (pyStrip fl.1), (fl.2 : Int), [], none⟩ rest by
        simp [parseLoop, hfm]] at hc
      rcases List.mem_append.mp hc with h2 | h2
      · rw [flushComment_line st c h2]
        exact hst
      · exact ih ⟨some (pyStrip fl.1), (fl.2 : Int), [], none⟩ (by simp) c h2

/-- Lines of comments emitted by `parse_review_comments` are non-negative. -/
theorem parse_line_nonneg (text : List Char) (c : PyComment)
    (h : c ∈ parse_review_comments text) : 0 ≤ c.line :=
  parseLoop_line_nonneg (splitOnChar '\n' text) ⟨none, 0, [], none⟩ (by simp) c h

/-- C1: the claim states that on a hunk header `@@ -old,oldCount +new,newCount @@`
the indexer sets its running counter to the NEW-file start (here 5).  The code
of main.py line 67 instead truncates at the first comma, keeping `"@@ -2"`,
and `int` parses `-2`: the counter is set to the negated OLD-file start, never
to the new-file start. -/
theorem claim_C1_code_eval :
    promptHunkExtract c1hdr = some (-2) ∧ ¬ promptHunkExtract c1hdr = some 5 := by
  decide

/-- C3: on the spec's five-line test vector the parser emits one comment, but
with file `"[app.py]"` (the regex group keeps the brackets; `.strip()` removes
only whitespace) and with the suggestion body re-buffered into the message
(the lookahead does not consume the lines from the outer loop), contradicting
the claimed `file="app.py"`, `message="Consider renaming this variable."`. -/
theorem claim_C3_code_eval :
    parse_review_comments c3text = [c3comment] ∧
    ¬ c3comment.file = ("app.py").toList ∧
    ¬ c3comment.message = ("Consider renaming this variable.").toList := by
  decide

/-- C5: on the spec's test patch the code computes the valid-line list `[-1]`
(negated old start, not incremented on context lines), not `[2]`, and
`create_pr_review_prompt` builds no line-to-position map at all. -/
theorem claim_C5_code_eval :
    fileLineNumbers c5patch = [-1] ∧ ¬ (2 : Int) ∈ fileLineNumbers c5patch := by
  decide

/-- C9: the hunk-header start-line extraction of the prompt builder
(main.py line 67) and of the position resolver (main.py line 352) are
extensionally equal — on every line both fail together or compute the same
integer. -/
theorem claim_C9_extract_eq (line : List Char) :
    promptHunkExtract line = reviewHunkExtract line := rfl

/-- C6 (counterexample to the claim as stated): after the malformed header
`"@@ bad @@"` the counter is NOT left unset — the `+b` line is still
recorded, under the stale counter 0 continuing the first hunk, so the
valid-line list is `[-1, 0]`, not `[-1]`. -/
theorem claim_C6_counterexample :
    startsWithL atatStr c6badHdr = true ∧ promptHunkExtract c6badHdr = none ∧
    fileLineNumbers c6patch = [-1, 0] := by
  decide

/-- C6 (amended): a hunk-header line whose integer fails to parse is skipped
without raising, and the running counter RETAINS its previous value (the
`except: continue` of main.py lines 68-69 does not reset `current_line`), so
subsequent `+`/`-` lines keep being recorded under the stale counter. -/
theorem claim_C6_amended (line : List Char) (rest : List (List Char)) (cur : Option Int)
    (h1 : startsWithL atatStr line = true) (h2 : promptHunkExtract line = none) :
    diffIndexScan cur (line :: rest) = diffIndexScan cur rest := by
  simp [diffIndexScan, h1, h2]

/-- Witness for the amended C6 at a concrete malformed header and counter. -/
theorem claim_C6_amended_witness :
    diffIndexScan (some 0) (c6badHdr :: [("+b").toList]) =
      diffIndexScan (some 0) [("+b").toList] :=
  claim_C6_amended c6badHdr [("+b").toList] (some 0) (by decide) (by decide)

/-- C7 (counterexample to the claim as stated): with one parsed comment whose
file is not in the diff, the positioned-comment list is empty and yet the
code still attempts the review submission (it only guards on the PARSED
list, main.py line 285), posting an empty comments array. -/
theorem claim_C7_counterexample :
    buildReviewComments [c7file] [c7ghost] = [] ∧
    create_github_review [c7file] [c7ghost] = ReviewOutcome.submitted [] := by
  decide

/-- C7 (amended): the early non-fatal return happens exactly when the PARSED
comment list is empty; any non-empty parsed list leads to a submission
carrying whatever positioned comments survived, even none. -/
theorem claim_C7_amended (diff : List FileData) (cs : List PyComment) (h : cs ≠ []) :
    create_github_review diff [] = ReviewOutcome.noComments ∧
    create_github_review diff cs = ReviewOutcome.submitted (buildReviewComments diff cs) := by
  constructor
  · rfl
  · cases cs with
    | nil => exact absurd rfl h
    | cons a l => rfl

/-- Witness for the amended C7 on a concrete non-empty comment list. -/
theorem claim_C7_amended_witness :
    create_github_review [c7file] [] = ReviewOutcome.noComments ∧
    create_github_review [c7file] [c7ghost] =
      ReviewOutcome.submitted (buildReviewComments [c7file] [c7ghost]) :=
  claim_C7_amended [c7file] [c7ghost] (by decide)

/-- C2 (counterexample to the claim as stated): on `c2patch` the spec's
line-to-position map sends line 3 to position 2 (the `+a` physical line),
but the resolver returns position 6 — it never consults such a map; it
always uses the hunk-scan estimate `0 + (3 - (-3))`. -/
theorem claim_C2_counterexample :
    specLineToPosition c2patch 3 = some 2 ∧
    resolveComment [c2file] c2comment = CommentResult.placed 6 ∧
    ¬ resolveComment [c2file] c2comment = CommentResult.placed 2 := by
  decide

/-- C2 (amended): the resolver always scans the patch lines in document
order; at the first `'@@'` line whose extraction (the negated old-file
start) yields `v ≤ comment.line` it returns
`headerIndex + (comment.line - v)`; there is no exact map lookup. -/
theorem claim_C2_amended (pre rest : List (List Char)) (hdr : List Char) (L v : Int)
    (hskip : ∀ l ∈ pre, startsWithL atatStr l = true →
      ∀ w : Int, reviewHunkExtract l = some w → L < w)
    (hh : startsWithL atatStr hdr = true) (hx : reviewHunkExtract hdr = some v)
    (hv : v ≤ L) :
    resolveScan L 0 (pre ++ hdr :: rest) = some ((pre.length : Int) + (L - v)) := by
  rw [resolveScan_skip L pre hskip (hdr :: rest) 0]
  simp [resolveScan, hh, hx, hv]

/-- Witness for the amended C2 at the `c2patch` hunk header. -/
theorem claim_C2_amended_witness :
    resolveScan 3 0 ([] ++ c2hdr :: c2wrest) =
      some ((([] : List (List Char)).length : Int) + (3 - (-3))) :=
  claim_C2_amended [] c2wrest c2hdr 3 (-3) (by simp) (by decide) (by decide) (by decide)

/-- C8: a parsed comment naming a file absent from the diff set resolves to
the warning outcome and contributes no positioned entry, and the batch of
positioned comments decomposes around it — the other comments' entries are
exactly what they would be without it. -/
theorem claim_C8_batch (diff : List FileData) (bad : PyComment)
    (cs1 cs2 : List PyComment) (h : ∀ fd ∈ diff, fd.filename ≠ bad.file) :
    resolveComment diff bad = CommentResult.unknownFile ∧
    buildReviewComments diff (cs1 ++ bad :: cs2) =
      buildReviewComments diff cs1 ++ buildReviewComments diff cs2 := by
  have h1 := resolveComment_unknown bad diff h
  refine ⟨h1, ?_⟩
  unfold buildReviewComments
  rw [List.filterMap_append]
  congr 1
  rw [List.filterMap_cons]
  simp [h1]

/-- Witness for C8: the unknown-file comment sits between a placed comment
and the end of the batch. -/
theorem claim_C8_batch_witness :
    resolveComment [c7file] c7ghost = CommentResult.unknownFile ∧
    buildReviewComments [c7file] ([w8good] ++ c7ghost :: []) =
      buildReviewComments [c7file] [w8good] ++ buildReviewComments [c7file] [] :=
  claim_C8_batch [c7file] c7ghost [w8good] [] (by decide)

/-- C4 (counterexample to the claim as stated): for `c4patch` the computed
valid-line list is `[-1]`; feeding the header `a.py:-1` plus a message line
back through the parser yields NO comment at all (the regex `:(\d+)` does
not match a negative number), so no positioned comment is placed. -/
theorem claim_C4_counterexample :
    (-1 : Int) ∈ fileLineNumbers c4patch ∧
    parse_review_comments c4negText = [] ∧
    create_github_review [c4file] (parse_review_comments c4negText) =
      ReviewOutcome.noComments := by
  decide

/-- C4 (amended): the round trip does hold for the NON-NEGATIVE members of
the valid-line list (written as a digit string `ds`), for a colon-free,
newline-free, whitespace-trim-invariant filename and a non-blank message
line containing no colon and no fence marker: parsing `<filename>:<ds>`
followed by the message yields one comment that the resolver places against
the same patch.  Negative valid lines — produced whenever a hunk's old start
exceeds 0 — break the round trip as the counterexample shows. -/
theorem claim_C4_amended (f patch m ds : List Char) (L : Int)
    (hf1 : ':' ∉ f) (hf2 : '\n' ∉ f) (hf3 : f ≠ []) (hf4 : pyStrip f = f)
    (hds0 : ds ≠ []) (hds : ∀ x ∈ ds, x.isDigit = true)
    (hdsv : (digitsVal ds : Int) = L)
    (hm1 : ':' ∉ m) (hm2 : '\n' ∉ m)
    (hm3 : containsSub fenceStr m = false) (hm4 : containsSub suggStr m = false)
    (hm5 : pyStrip m ≠ [])
    (hL : L ∈ fileLineNumbers patch) :
    ∃ p : Int, create_github_review [⟨f, patch⟩]
        (parse_review_comments ((f ++ ':' :: ds) ++ '\n' :: m)) =
      ReviewOutcome.submitted [⟨f, p, pyStrip m ++ '\n' :: '\n' :: []⟩] := by
  have hnlds : '\n' ∉ ds := fun hmem => absurd (hds '\n' hmem) (by decide)
  have hsplit : splitOnChar '\n' ((f ++ ':' :: ds) ++ '\n' :: m) = (f ++ ':' :: ds) :: [m] := by
    rw [splitOnChar_append '\n' (f ++ ':' :: ds) m (by
      intro hmem
      rcases List.mem_append.mp hmem with h | h
      · exact hf2 h
      · rcases List.mem_cons.mp h with e | h
        · cases e
        · exact hnlds h)]
    rw [splitOnChar_not_mem '\n' m hm2]
  have hfm1 : fileMatch (f ++ ':' :: ds) = some (f, digitsVal ds) :=
    fileMatch_header f ds hf1 hf3 hds0 hds
  have hfm2 : fileMatch m = none := fileMatch_no_colon m hm1
  have htr : fileTruthy (some f) = true := by
    simp [fileTruthy, isEmpty_false_of_ne_nil f hf3]
  have hpsm : (pyStrip m).isEmpty = false := isEmpty_false_of_ne_nil _ hm5
  have hparse : parse_review_comments ((f ++ ':' :: ds) ++ '\n' :: m) =
      [⟨f, L, pyStrip m, none⟩] := by
    unfold parse_review_comments
    rw [hsplit]
    rw [show parseLoop ⟨none, 0, [], none⟩ ((f ++ ':' :: ds) :: [m]) =
        parseLoop ⟨some (pyStrip f), ((digitsVal ds : Nat) : Int), [], none⟩ [m] by
      simp [parseLoop, hfm1, flushComment, fileTruthy]]
    rw [hf4, hdsv]
    rw [show parseLoop ⟨some f, L, [], none⟩ [m] =
        parseLoop ⟨some f, L, [] ++ [m], none⟩ [] by
      simp [parseLoop, hfm2, hm3, hm4, htr, hpsm]]
    simp [parseLoop, flushComment, fileTruthy, isEmpty_false_of_ne_nil f hf3, joinNL_single]
  have hpne : patch ≠ [] := by
    intro e
    rw [e] at hL
    have hempty : fileLineNumbers [] = ([] : List Int) := rfl
    rw [hempty] at hL
    cases hL
  have hLmem := mem_scan_of_mem_fileLineNumbers patch L hL
  rcases diffIndexScan_origin (splitOnChar '\n' patch) none L hLmem with
    ⟨n, hn, _⟩ | ⟨H, hH, hHat, v, hHx, hHv⟩
  · cases hn
  · have hHx2 : reviewHunkExtract H = some v := by
      rw [← hunk_extract_congr H]
      exact hHx
    rcases resolveScan_isSome L (splitOnChar '\n' patch) H v hH hHat hHx2 hHv 0 with ⟨p, hp⟩
    refine ⟨p, ?_⟩
    rw [hparse]
    have hres : resolveComment [⟨f, patch⟩] ⟨f, L, pyStrip m, none⟩ =
        CommentResult.placed p := by
      unfold resolveComment
      simp [resolveCommentAux, isEmpty_false_of_ne_nil patch hpne, hp]
    show ReviewOutcome.submitted (buildReviewComments [⟨f, patch⟩] [⟨f, L, pyStrip m, none⟩]) =
      ReviewOutcome.submitted [⟨f, p, pyStrip m ++ '\n' :: '\n' :: []⟩]
    congr 1
    simp [buildReviewComments, hres, commentBody, suggTruthy]

/-- Witness for the amended C4 on a new-file patch (old start 0), whose
valid-line list `[0, 1]` is non-negative. -/
theorem claim_C4_amended_witness :
    ∃ p : Int, create_github_review [⟨w4f, w4patch⟩]
        (parse_review_comments ((w4f ++ ':' :: w4ds) ++ '\n' :: w4m)) =
      ReviewOutcome.submitted [⟨w4f, p, pyStrip w4m ++ '\n' :: '\n' :: []⟩] :=
  claim_C4_amended w4f w4patch w4m w4ds 1
    (by decide) (by decide) (by decide) (by decide)
    (by decide) (by decide) (by decide)
    (by decide) (by decide) (by decide) (by decide) (by decide)
    (by decide)

/-- C10: a comment emitted by the parser (hence with non-negative line),
whose file sits in the diff set with a non-empty patch whose first `'@@'`
line has the standard `@@ -a,b +c,d @@` shape, is ALWAYS placed: the header
extracts to `-a ≤ 0 ≤ comment.line`, so the first hunk header qualifies and
the no-qualifying-hunk drop branch is unreachable; the position is
`headerIndex + comment.line + a`. -/
theorem claim_C10_placed (text : List Char) (c : PyComment) (d1 d2 : List FileData)
    (fdpatch : List Char) (pre rest : List (List Char)) (olds oldc news newc : List Char)
    (hc : c ∈ parse_review_comments text)
    (hd1 : ∀ fd ∈ d1, fd.filename ≠ c.file)
    (hpatch : fdpatch ≠ [])
    (hlines : splitOnChar '\n' fdpatch = pre ++ stdHeader olds oldc news newc :: rest)
    (hpre : ∀ l ∈ pre, startsWithL atatStr l = false)
    (holds0 : olds ≠ []) (holds : ∀ ch ∈ olds, ch.isDigit = true)
    (holdc0 : oldc ≠ []) (holdc : ∀ ch ∈ oldc, ch.isDigit = true)
    (hnews0 : news ≠ []) (hnews : ∀ ch ∈ news, ch.isDigit = true)
    (hnewc0 : newc ≠ []) (hnewc : ∀ ch ∈ newc, ch.isDigit = true) :
    resolveComment (d1 ++ (⟨c.file, fdpatch⟩ : FileData) :: d2) c =
      CommentResult.placed ((pre.length : Int) + (c.line + (digitsVal olds : Int))) := by
  have hL : 0 ≤ c.line := parse_line_nonneg text c hc
  have hpe : fdpatch.isEmpty = false := isEmpty_false_of_ne_nil fdpatch hpatch
  have hsw : startsWithL atatStr (stdHeader olds oldc news newc) = true :=
    startsWith_stdHeader olds oldc news newc
  have hex : reviewHunkExtract (stdHeader olds oldc news newc) =
      some (-(digitsVal olds : Int)) :=
    reviewHunkExtract_stdHeader olds oldc news newc holds0 holds
  have hle : -(digitsVal olds : Int) ≤ c.line := by
    have h0 : (0 : Int) ≤ (digitsVal olds : Int) := by simp
    omega
  have hscan : resolveScan c.line 0 (splitOnChar '\n' fdpatch) =
      some ((pre.length : Int) + (c.line + (digitsVal olds : Int))) := by
    rw [hlines]
    rw [resolveScan_skip c.line pre
      (fun l hl hS => absurd hS (by simp [hpre l hl]))
      (stdHeader olds oldc news newc :: rest) 0]
    rw [show resolveScan c.line (0 + pre.length) (stdHeader olds oldc news newc :: rest) =
        some (((0 + pre.length : Nat) : Int) + (c.line - -(digitsVal olds : Int))) by
      simp [resolveScan, hsw, hex, hle]]
    congr 1
    omega
  unfold resolveComment
  rw [resolveCommentAux_skip c d1 hd1 ((⟨c.file, fdpatch⟩ : FileData) :: d2) false]
  simp [resolveCommentAux, hpe, hscan]

/-- Witness for C10 on a concrete parsed comment and one-file diff. -/
theorem claim_C10_placed_witness :
    resolveComment ([] ++ (⟨w10comment.file, w10patch⟩ : FileData) :: []) w10comment =
      CommentResult.placed ((([] : List (List Char)).length : Int) +
        (w10comment.line + (digitsVal (("1").toList) : Int))) :=
  claim_C10_placed w10text w10comment [] [] w10patch [] w10rest
    (("1").toList) (("2").toList) (("3").toList) (("4").toList)
    (by decide) (by simp) (by decide) (by decide) (by simp)
    (by decide) (by decide) (by decide) (by decide)
    (by decide) (by decide) (by decide) (by decide)
